import Mathlib

/-!
Shallow embedding of the fcgi-cli sources (`src/headers.rs`, `src/main.rs`)
and verification of the specification's claims about them.

Bytes are modelled as `Nat` (each value < 256 in practice); byte slices as
`List Nat`.  The nom parsers of `headers.rs` become functions
`List Nat → Option (List Nat × α)` returning the remaining input and the
parsed value, `none` standing for a nom parse error.  Iterating combinators
(`many0`, `fold_many1`) are realised with a fuel argument instantiated at the
input length; since every iteration of the embedded parsers consumes at least
one byte this fuel is always sufficient (see `foldFieldsF_fuel_stable` and
`many0fcF_fuel_stable`).
-/

namespace FcgiCli

/-- Rust's `(b as char).is_ascii_control()`: code points 0x00–0x1F and 0x7F. -/
def isAsciiControl (b : Nat) : Bool := b < 32 || b == 127

/-- The byte set written in `headers.rs` as the Rust byte string
literal of separators excluded from tokens:
left paren, right paren, angle brackets, at, comma, semicolon, colon,
backslash, double quote, slash, square brackets, question mark, equals,
curly braces and space. -/
def tokenSepSet : List Nat := [40, 41, 60, 62, 64, 44, 59, 58, 92, 34, 47, 91, 93, 63, 61, 123, 125, 32]

/-- The separator byte set used by `separator` in `headers.rs`: the token
separator set extended with horizontal tab. -/
def sepSet : List Nat := [40, 41, 60, 62, 64, 44, 59, 58, 92, 34, 47, 91, 93, 63, 61, 123, 125, 32, 9]

/-- Predicate of the `take_while1` closure in `token`. -/
def isTokenByte (b : Nat) : Bool := !(tokenSepSet.contains b) && !(isAsciiControl b)

/-- Predicate of the `take_while` closure in `quoted_string`. -/
def isQuotedByte (b : Nat) : Bool := b != 34 && (b == 9 || !(isAsciiControl b))

/-- Embedding of `token`: `take_while1` of token bytes. -/
def token (input : List Nat) : Option (List Nat × List Nat) :=
  let pre := input.takeWhile isTokenByte
  if pre.isEmpty then none else some (input.drop pre.length, pre)

/-- Embedding of `separator`: a single byte from the separator set, returned as a
one-byte slice (the `map(separator, std::slice::from_ref)` in
`field_content`). -/
def separatorP (input : List Nat) : Option (List Nat × List Nat) :=
  match input with
  | b :: rest => if sepSet.contains b then some (rest, [b]) else none
  | [] => none

/-- Embedding of `quoted_string`: a double quote (byte 34), a run of quoted
bytes, a double quote. -/
def quoted_string (input : List Nat) : Option (List Nat × List Nat) :=
  match input with
  | b :: rest =>
    if b == 34 then
      let inner := rest.takeWhile isQuotedByte
      match rest.drop inner.length with
      | c :: rest2 => if c == 34 then some (rest2, inner) else none
      | [] => none
    else none
  | [] => none

/-- One alternative of the `alt` inside `field_content`:
token, else separator, else quoted string. -/
def fcItem (input : List Nat) : Option (List Nat × List Nat) :=
  match token input with
  | some r => some r
  | none =>
    match separatorP input with
    | some r => some r
    | none => quoted_string input

/-- The `many0` loop of `field_content`, with fuel; returns the remaining
input after repeating `fcItem` until it fails. -/
def many0fcF : Nat → List Nat → List Nat
  | 0, input => input
  | fuel + 1, input =>
    match fcItem input with
    | none => input
    | some (rest, _) => many0fcF fuel rest

/-- Embedding of `field_content`: `recognize(many0(alt((token, separator, quoted_string))))`.
The captured value is the span of consumed bytes. -/
def field_content (input : List Nat) : Option (List Nat × List Nat) :=
  let rest := many0fcF input.length input
  some (rest, input.take (input.length - rest.length))

/-- nom's `space0`: a possibly empty run of spaces and horizontal tabs. -/
def space0 (input : List Nat) : Option (List Nat × List Nat) :=
  let pre := input.takeWhile (fun b => b == 32 || b == 9)
  some (input.drop pre.length, pre)

/-- nom's `line_ending`: a bare line feed (byte 10), or carriage return
(byte 13) followed by line feed. -/
def line_ending (input : List Nat) : Option (List Nat × List Nat) :=
  match input with
  | b :: rest =>
    if b == 10 then some (rest, [10])
    else if b == 13 then
      match rest with
      | c :: rest2 => if c == 10 then some (rest2, [13, 10]) else none
      | [] => none
    else none
  | [] => none

/-- Embedding of nom's `tag(b":")`: byte 58. -/
def tagColon (input : List Nat) : Option (List Nat × List Nat) :=
  match input with
  | b :: rest => if b == 58 then some (rest, [58]) else none
  | [] => none

/-- Embedding of `generic_field`: name token, colon, optional horizontal space,
field content, line ending; value is the (name, value) pair of raw spans. -/
def generic_field (input : List Nat) : Option (List Nat × (List Nat × List Nat)) := do
  let (r1, name) ← token input
  let (r2, _) ← tagColon r1
  let (r3, _) ← space0 r2
  let (r4, value) ← field_content r3
  let (r5, _) ← line_ending r4
  pure (r5, (name, value))

/-- Embedding of `latin1_to_string`: total byte-to-code-point decoding. -/
def latin1_to_string (s : List Nat) : String :=
  String.mk (s.map (fun b => Char.ofNat b))

/-- Rust's `str::to_ascii_lowercase`: only A–Z are lowered. -/
def asciiLower (s : String) : String :=
  String.mk (s.data.map (fun c => if c.isUpper then Char.ofNat (c.toNat + 32) else c))

/-- The header mapping: association list with the key semantics of Rust's
`HashMap::insert` (replace the binding if the key is present). -/
abbrev HMap := List (String × String)

/-- Semantics of `HashMap::insert`: replace an existing binding for the key, else add one. -/
def hmInsert (m : HMap) (k v : String) : HMap :=
  if m.any (fun p => p.1 == k) then
    m.map (fun p => if p.1 == k then (k, v) else p)
  else m ++ [(k, v)]

/-- Semantics of `HashMap::get`. -/
def hmGet (m : HMap) (k : String) : Option String :=
  (m.find? (fun p => p.1 == k)).map (fun p => p.2)

/-- The fold step of `fold_many1` in `parse_headers`: insert the
Latin-1-decoded pair, name lowercased. -/
def insertField (acc : HMap) (kv : List Nat × List Nat) : HMap :=
  hmInsert acc (asciiLower (latin1_to_string kv.1)) (latin1_to_string kv.2)

/-- The iteration of `fold_many1 generic_field`, with fuel, generic in the
accumulator exactly as nom's `fold_many1` is. -/
def foldFieldsF {α : Type} (step : α → List Nat × List Nat → α) :
    Nat → α → List Nat → List Nat × α
  | 0, acc, input => (input, acc)
  | fuel + 1, acc, input =>
    match generic_field input with
    | none => (input, acc)
    | some (rest, kv) => foldFieldsF step fuel (step acc kv) rest

/-- Embedding of `parse_headers`: at least one generic field folded into the map,
terminated by a line ending; returns (body, header map). -/
def parse_headers (input : List Nat) : Option (List Nat × HMap) := do
  let (rest, kv) ← generic_field input
  let fm := foldFieldsF insertField rest.length (insertField [] kv) rest
  let (body, _) ← line_ending fm.1
  pure (body, fm.2)

/-- The same parse with a trivial fold: only the structure of the input is
examined, no byte is ever decoded.  Used to show that Latin-1 decoding
contributes no failure mode. -/
def parse_headers_struct (input : List Nat) : Option (List Nat × Unit) := do
  let (rest, kv) ← generic_field input
  let fm := foldFieldsF (fun _ _ => ()) rest.length ((fun _ _ => ()) () kv) rest
  let (body, _) ← line_ending fm.1
  pure (body, fm.2)

/-! ## Embedding of `src/main.rs` -/

/-- The host of a parsed URL, as in the `url` crate's `Host` enum
(only the distinction the code inspects matters: domain vs. IP). -/
inductive UrlHost
  | domain (name : String)
  | ipAddr
deriving DecidableEq, Repr

/-- A parsed URL, exposing exactly the accessors `main.rs` uses
(`scheme`, `host`, `path`, `query`, `path_segments`). -/
structure Url where
  scheme : String
  host : Option UrlHost
  path : String
  query : Option String
deriving DecidableEq, Repr

/-- Whether `s` has `pre` as a leading run of characters
(Rust's `str::starts_with`). -/
def strStarts (s pre : String) : Bool := s.data.take pre.data.length == pre.data

/-- The string after its first `n` characters. -/
def strDrop (s : String) (n : Nat) : String := String.mk (s.data.drop n)

/-- Rust's `str::split('/')` on a character list: the (never empty) list of
runs between slashes, keeping empty runs. -/
def splitSlash : List Char → List (List Char)
  | [] => [[]]
  | '/' :: rest => [] :: splitSlash rest
  | c :: rest =>
    match splitSlash rest with
    | h :: t => (c :: h) :: t
    | [] => [[c]]

/-- Embedding of `Url::path_segments`: for a URL with a hierarchical path (starting with
a slash) this is the path after the leading slash split on slashes;
otherwise (cannot-be-a-base URLs) there are no segments. -/
def Url.path_segments (u : Url) : Option (List String) :=
  if strStarts u.path "/" then
    some ((splitSlash (u.path.data.drop 1)).map (fun l => String.mk l))
  else none

/-- The `Cli` options structure (paths modelled as strings). -/
structure Cli where
  address : String
  url : Option Url
  data : Option String
  server_document_root : Option String
  script_name : Option String
  env_vars : List String
  env_clear : Bool
  env_full : Bool
  response_headers_dump_file : Option String
  response_headers_include : Bool
  response_status_fail_on_gte_400 : Bool
  output_directory : Option String
  output_file_name : Option String
  output_file_remote_name : Bool
  stderr_file_name : Option String
  request_method : String
deriving Repr

/-- The failure conditions `main.rs` can surface while routing a response
(`unwrapPanic` models the `unwrap()` panics on an absent URL or absent
path segments). -/
inductive RErr
  | malformedHeaders
  | invalidStatusValue
  | upstreamError (status : Nat)
  | emptyRemoteName
  | unwrapPanic
deriving DecidableEq, Repr

/-- An output sink: a named file (already resolved against the output
directory) or one of the two standard streams. -/
inductive Dest
  | file (path : String)
  | stdoutStream
  | stderrStream
deriving DecidableEq, Repr

/-- Rust's `Path::join` on string paths: an absolute right operand replaces
the left, otherwise the right is appended with a separating slash. -/
def pathJoin (a b : String) : String :=
  if b.data.head? == some '/' then b
  else if a == "" then b
  else if a.data.getLast? == some '/' then a ++ b
  else a ++ "/" ++ b

/-- Embedding of `Cli::resolve_output_path`: note the source joins the output directory
onto the file path, in that order. -/
def resolve_output_path (cli : Cli) (path : String) : String :=
  match cli.output_directory with
  | some d => pathJoin path d
  | none => path

/-- Embedding of `Cli::real_output_file_name`. -/
def real_output_file_name (cli : Cli) : Except RErr (Option String) :=
  if cli.output_file_remote_name then
    match cli.url with
    | none => .error .unwrapPanic
    | some url =>
      match url.path_segments with
      | none => .error .unwrapPanic
      | some segs =>
        match segs.getLast? with
        | none => .error .emptyRemoteName
        | some s => .ok (some s)
  else .ok cli.output_file_name

/-- Embedding of `Cli::need_parse_header`. -/
def need_parse_header (cli : Cli) : Bool :=
  cli.response_status_fail_on_gte_400
    || !cli.response_headers_include
    || cli.response_headers_dump_file.isSome

/-- Rust `char::is_ascii_whitespace`: space, horizontal tab, line feed,
form feed, carriage return. -/
def isAsciiWs (c : Char) : Bool :=
  c == ' ' || c == '\t' || c == '\n' || c == '\x0c' || c == '\r'

/-- Embedding of `split_ascii_whitespace().next().unwrap_or("")`: the first maximal run
of non-whitespace characters, or the empty string. -/
def firstAsciiWsToken (s : String) : String :=
  String.mk ((s.data.dropWhile isAsciiWs).takeWhile (fun c => !(isAsciiWs c)))

/-- Rust `str::parse::<u16>`: an optional leading plus sign, then one or
more decimal digits, value at most 65535. -/
def parseU16 (s : String) : Option Nat :=
  let ds := if s.data.head? == some '+' then s.data.drop 1 else s.data
  if ds.isEmpty then none
  else if ds.all Char.isDigit then
    let n := ds.foldl (fun a c => a * 10 + (c.toNat - 48)) 0
    if n ≤ 65535 then some n else none
  else none

/-- The status extraction of `handle_response_stdout`: absent header means
200, otherwise the first whitespace-delimited token of the value parsed as
an unsigned 16-bit integer. -/
def statusOf (headers : HMap) : Except RErr Nat :=
  match hmGet headers "status" with
  | none => .ok 200
  | some v =>
    match parseU16 (firstAsciiWsToken v) with
    | some n => .ok n
    | none => .error .invalidStatusValue

/-- The destination of the primary output
(`real_output_file_name` + `open_output_file` resolution). -/
def outDest (cli : Cli) : Except RErr Dest :=
  match real_output_file_name cli with
  | .error e => .error e
  | .ok (some f) => .ok (.file (resolve_output_path cli f))
  | .ok none => .ok .stdoutStream

/-- Embedding of `handle_response_stdout`, as the list of (destination, bytes) writes it
performs in order, paired with the error that aborted it, if any.
Writes that the source performs before an abort are kept. -/
def handle_response_stdout (cli : Cli) (data : List Nat) :
    List (Dest × List Nat) × Option RErr :=
  let headerStage : List (Dest × List Nat) × Except RErr (List Nat) :=
    if need_parse_header cli then
      match parse_headers data with
      | none => ([], .error .malformedHeaders)
      | some (body, headers) =>
        let statusErr : Option RErr :=
          if cli.response_status_fail_on_gte_400 then
            match statusOf headers with
            | .error e => some e
            | .ok status => if status > 400 then some (.upstreamError status) else none
          else none
        match statusErr with
        | some e => ([], .error e)
        | none =>
          let dumpWrites :=
            match cli.response_headers_dump_file with
            | some f =>
              [(Dest.file (resolve_output_path cli f), data.take (data.length - body.length))]
            | none => []
          (dumpWrites, .ok (if cli.response_headers_include then data else body))
    else ([], .ok data)
  match headerStage with
  | (w, .error e) => (w, some e)
  | (w, .ok out) =>
    match outDest cli with
    | .error e => (w, some e)
    | .ok d => (w ++ [(d, out)], none)

/-- Embedding of `handle_response_stderr`: the diagnostic bytes go verbatim to the
configured stderr file or the standard error stream. -/
def handle_response_stderr (cli : Cli) (data : List Nat) :
    List (Dest × List Nat) × Option RErr :=
  match cli.stderr_file_name with
  | some f => ([(Dest.file (resolve_output_path cli f), data)], none)
  | none => ([(Dest.stderrStream, data)], none)

/-- The response-routing tail of `execute`: the primary stream is handled
first and its error, if any, aborts the whole operation before the
diagnostic stream is handled. -/
def executeResponses (cli : Cli) (stdoutData stderrData : Option (List Nat)) :
    List (Dest × List Nat) × Option RErr :=
  match stdoutData with
  | some d =>
    match handle_response_stdout cli d with
    | (w, some e) => (w, some e)
    | (w, none) =>
      match stderrData with
      | some ed =>
        match handle_response_stderr cli ed with
        | (w2, e2) => (w ++ w2, e2)
      | none => (w, none)
  | none =>
    match stderrData with
    | some ed => handle_response_stderr cli ed
    | none => ([], none)

/-! ## Embedding of the parameter deriver (`set_from_cli`) -/

/-- The FastCGI parameter set of the `fastcgi_client` crate: a string map
with the same insert/get semantics as `HMap`. -/
abbrev Params := HMap

/-- Rust's `str::len`: the UTF-8 byte length of a string. -/
def utf8Len (s : String) : Nat := s.data.foldl (fun n c => n + c.utf8Size) 0

/-- The `strip_prefix(...).unwrap_or(p)` computation of the path info:
the path with the leading `pre` removed when `pre` leads it, else the
path unchanged. -/
def stripPrefixOr (path pre : String) : String :=
  if strStarts path pre then strDrop path pre.data.length else path

/-- Embedding of `ParamsExt::set_from_cli`, step for step in source order. -/
def set_from_cli (p0 : Params) (cli : Cli) : Params :=
  let p1 := hmInsert p0 "REQUEST_METHOD" cli.request_method
  let scriptStep : Params × String :=
    match cli.script_name with
    | some sn => (hmInsert p1 "SCRIPT_NAME" sn, sn)
    | none => (p1, (hmGet p1 "SCRIPT_NAME").getD "")
  let p2 := scriptStep.1
  let script_name := scriptStep.2
  let p3 :=
    if script_name != "" then
      match cli.server_document_root with
      | some root => hmInsert p2 "SCRIPT_FILENAME" (root ++ script_name)
      | none => p2
    else p2
  let p4 :=
    match cli.url with
    | some url =>
      let path_info := stripPrefixOr url.path script_name
      let pa :=
        if path_info != "" then
          let pt :=
            match cli.server_document_root with
            | some root => hmInsert p3 "PATH_TRANSLATED" (root ++ path_info)
            | none => p3
          hmInsert pt "PATH_INFO" path_info
        else p3
      let pb :=
        match url.host with
        | some (UrlHost.domain d) => hmInsert pa "HTTP_HOST" d
        | _ => pa
      let pc :=
        match url.query with
        | some qs =>
          hmInsert (hmInsert pb "QUERY_STRING" qs) "REQUEST_URI" (url.path ++ "?" ++ qs)
        | none => hmInsert pb "REQUEST_URI" url.path
      if url.scheme == "https" then hmInsert pc "HTTPS" "on" else pc
    | none => p3
  match cli.data with
  | some d =>
    if hmGet p4 "CONTENT_LENGTH" = none then
      hmInsert p4 "CONTENT_LENGTH" (toString (utf8Len d))
    else p4
  | none => p4

/-- Byte list of an ASCII string, for concrete test inputs. -/
def strBytes (s : String) : List Nat := s.data.map Char.toNat

/-! ## Auxiliary notions used by the verification -/

/-- The bytes a field-content run may contain: horizontal tab or any
non-control byte.  Below it is proved that this set is exactly the union of
the token bytes and the separator bytes, which characterises the greedy
`field_content` run. -/
def isFieldByte (b : Nat) : Bool := b == 9 || !(isAsciiControl b)

/-- The predicate of nom's `space0`. -/
def isSpaceTab (b : Nat) : Bool := b == 32 || b == 9

/-- A rendered generic field: name bytes, colon, value bytes, terminator. -/
def renderFieldT (ft : (List Nat × List Nat) × List Nat) : List Nat :=
  ft.1.1 ++ [58] ++ ft.1.2 ++ ft.2

/-- A rendered header block: generic fields (each carrying its own line
terminator), the blank-line terminator, then the body. -/
def renderBlock (fts : List ((List Nat × List Nat) × List Nat)) (t body : List Nat) :
    List Nat :=
  (fts.map renderFieldT).flatten ++ t ++ body

/-- Well-formedness of a rendered field: non-empty token name, value made of
field-content bytes, CR-LF or bare-LF terminator. -/
def fieldTermOk (ft : (List Nat × List Nat) × List Nat) : Prop :=
  ft.1.1 ≠ [] ∧ (∀ b ∈ ft.1.1, isTokenByte b = true) ∧
    (∀ b ∈ ft.1.2, isFieldByte b = true) ∧ (ft.2 = [13, 10] ∨ ft.2 = [10])

/-- The header map a well-formed rendered block parses to: the fields folded
in order, each value stripped of the spaces and tabs `space0` discards. -/
def buildMap (fs : List (List Nat × List Nat)) : HMap :=
  fs.foldl (fun a f => insertField a (f.1, f.2.dropWhile isSpaceTab)) []

/-- Head-failure: the first element of `l`, if any, falsifies `p`. -/
def headFails (p : Nat → Bool) (l : List Nat) : Prop :=
  ∀ b t, l = b :: t → p b = false

/-! ## Generic list lemmas -/

theorem takeWhile_all {p : Nat → Bool} {u : List Nat} (h : ∀ b ∈ u, p b = true) :
    u.takeWhile p = u := by
  induction u with
  | nil => rfl
  | cons a u ih =>
    have ha : p a = true := h a (by simp)
    have ih2 := ih (fun b hb => h b (by simp [hb]))
    simp [List.takeWhile_cons, ha, ih2]

theorem takeWhile_append_headFails {p : Nat → Bool} {rest : List Nat}
    (hr : headFails p rest) (u : List Nat) :
    (u ++ rest).takeWhile p = u.takeWhile p := by
  induction u with
  | nil =>
    cases rest with
    | nil => rfl
    | cons b t => simp [List.takeWhile_cons, hr b t rfl]
  | cons a u ih => by_cases ha : p a <;> simp [List.takeWhile_cons, ha, ih]

theorem drop_length_takeWhile (p : Nat → Bool) (l : List Nat) :
    l.drop (l.takeWhile p).length = l.dropWhile p := by
  induction l with
  | nil => rfl
  | cons a l ih =>
    by_cases ha : p a <;> simp [List.takeWhile_cons, List.dropWhile_cons, ha, ih]

theorem suffix_take_append {r input : List Nat} (h : r <:+ input) :
    input.take (input.length - r.length) ++ r = input := by
  obtain ⟨w, rfl⟩ := h
  have hl : (w ++ r).length - r.length = w.length := by simp [List.length_append]
  rw [hl, List.take_left]

/-! ## Byte classification lemmas -/

theorem tokenByte_field {b : Nat} (h : isTokenByte b = true) : isFieldByte b = true := by
  unfold isTokenByte at h
  unfold isFieldByte
  rw [Bool.and_eq_true, Bool.not_eq_true', Bool.not_eq_true'] at h
  simp [h.2]

theorem sepByte_field {b : Nat} (h : sepSet.contains b = true) : isFieldByte b = true := by
  have hb : b ∈ sepSet := List.elem_iff.mp h
  simp only [sepSet, List.mem_cons, List.not_mem_nil, or_false] at hb
  rcases hb with rfl | rfl | rfl | rfl | rfl | rfl | rfl | rfl | rfl | rfl | rfl | rfl |
    rfl | rfl | rfl | rfl | rfl | rfl | rfl <;> rfl

theorem sepContains_of_tokenSep {b : Nat} (h : tokenSepSet.contains b = true) :
    sepSet.contains b = true := by
  have hb : b ∈ tokenSepSet := List.elem_iff.mp h
  refine List.elem_iff.mpr ?_
  simp only [tokenSepSet, List.mem_cons, List.not_mem_nil, or_false] at hb
  simp only [sepSet, List.mem_cons]
  tauto

theorem fieldByte_cases {b : Nat} (h : isFieldByte b = true) :
    isTokenByte b = true ∨ sepSet.contains b = true := by
  by_cases h9 : b = 9
  · subst h9; exact Or.inr (by decide)
  by_cases hc : tokenSepSet.contains b = true
  · exact Or.inr (sepContains_of_tokenSep hc)
  · left
    unfold isFieldByte at h
    unfold isTokenByte
    have h9b : (b == 9) = false := by simp [h9]
    rw [h9b, Bool.false_or] at h
    rw [Bool.not_eq_true] at hc
    rw [hc, h]
    rfl

theorem fieldByte_of_tokenFail_sepFail {b : Nat}
    (ht : isTokenByte b = false) (hs : sepSet.contains b = false) :
    isFieldByte b = false := by
  cases hf : isFieldByte b
  · rfl
  · rcases fieldByte_cases hf with h | h
    · rw [ht] at h; cases h
    · rw [hs] at h; cases h

/-! ## Inversion and suffix lemmas for the basic parsers -/

theorem token_some {input r v : List Nat} (h : token input = some (r, v)) :
    v ≠ [] ∧ v ++ r = input := by
  unfold token at h
  by_cases he : (input.takeWhile isTokenByte).isEmpty
  · simp [he] at h
  · simp only [he, if_neg, Bool.false_eq_true, not_false_iff, if_false] at h
    obtain ⟨hr, hv⟩ := Prod.mk.injEq .. ▸ Option.some.injEq .. ▸ h
    constructor
    · rw [← hv]
      exact fun hcon => he (by simp [hcon])
    · rw [← hv, ← hr, drop_length_takeWhile]
      exact List.takeWhile_append_dropWhile isTokenByte input

theorem token_suffix {input r v : List Nat} (h : token input = some (r, v)) :
    r <:+ input ∧ r.length < input.length := by
  obtain ⟨hv, hvr⟩ := token_some h
  constructor
  · rw [← hvr]; exact List.suffix_append v r
  · have := congrArg List.length hvr
    simp only [List.length_append] at this
    have hlen : 0 < v.length := List.length_pos.mpr hv
    omega

theorem token_none_of_headFails {input : List Nat} (h : headFails isTokenByte input) :
    token input = none := by
  cases input with
  | nil => rfl
  | cons b t => simp [token, List.takeWhile_cons, h b t rfl]

theorem token_exact {n rest : List Nat} (hn : n ≠ [])
    (hall : ∀ b ∈ n, isTokenByte b = true) (hr : headFails isTokenByte rest) :
    token (n ++ rest) = some (rest, n) := by
  have hpre : (n ++ rest).takeWhile isTokenByte = n := by
    rw [takeWhile_append_headFails hr, takeWhile_all hall]
  simp [token, hpre, hn, List.drop_left]

theorem separatorP_some {input r v : List Nat} (h : separatorP input = some (r, v)) :
    ∃ b, input = b :: r ∧ sepSet.contains b = true ∧ v = [b] := by
  cases input with
  | nil => cases h
  | cons b t =>
    simp only [separatorP] at h
    by_cases hb : sepSet.contains b = true
    · rw [if_pos hb] at h
      obtain ⟨hr, hv⟩ := Prod.mk.injEq .. ▸ Option.some.injEq .. ▸ h
      exact ⟨b, by rw [hr], hb, hv.symm⟩
    · rw [if_neg hb] at h; cases h

theorem quoted_some {input r v : List Nat} (h : quoted_string input = some (r, v)) :
    r <:+ input ∧ r.length < input.length := by
  cases input with
  | nil => cases h
  | cons b t =>
    simp only [quoted_string] at h
    by_cases hb : (b == 34) = true
    · rw [if_pos hb] at h
      cases hd : t.drop (t.takeWhile isQuotedByte).length with
      | nil => rw [hd] at h; cases h
      | cons c t2 =>
        rw [hd] at h
        change (if (c == 34) = true then some (t2, t.takeWhile isQuotedByte) else none) =
          some (r, v) at h
        by_cases hc : (c == 34) = true
        · rw [if_pos hc] at h
          obtain ⟨hr, -⟩ := Prod.mk.injEq .. ▸ Option.some.injEq .. ▸ h
          have h1 : c :: t2 <:+ t := hd ▸ List.drop_suffix _ t
          have h2 : r <:+ b :: t := by
            rw [← hr]
            exact (List.suffix_cons c t2).trans (h1.trans (List.suffix_cons b t))
          refine ⟨h2, ?_⟩
          have h3 : (c :: t2).length ≤ t.length := h1.length_le
          rw [← hr]
          simp only [List.length_cons] at h3 ⊢
          omega
        · rw [if_neg hc] at h; cases h
    · rw [if_neg hb] at h; cases h

theorem quoted_none_of_head {b : Nat} {t : List Nat} (hb : (b == 34) = false) :
    quoted_string (b :: t) = none := by
  simp only [quoted_string]
  rw [hb]
  rfl

theorem fcItem_suffix {input r v : List Nat} (h : fcItem input = some (r, v)) :
    r <:+ input ∧ r.length < input.length := by
  unfold fcItem at h
  cases ht : token input with
  | some p =>
    rw [ht] at h
    obtain rfl : p = (r, v) := Option.some.injEq .. ▸ h
    exact token_suffix ht
  | none =>
    rw [ht] at h
    cases hs : separatorP input with
    | some p =>
      rw [hs] at h
      obtain rfl : p = (r, v) := Option.some.injEq .. ▸ h
      obtain ⟨b, hb, -, -⟩ := separatorP_some hs
      subst hb
      exact ⟨List.suffix_cons b r, by simp⟩
    | none =>
      rw [hs] at h
      exact quoted_some h

theorem fcItem_none_of_headFails {input : List Nat} (h : headFails isFieldByte input) :
    fcItem input = none := by
  have ht : token input = none := by
    refine token_none_of_headFails (fun b t e => ?_)
    have hf := h b t e
    cases htb : isTokenByte b
    · rfl
    · rw [tokenByte_field htb] at hf; cases hf
  cases input with
  | nil => rfl
  | cons b t =>
    have hf := h b t rfl
    have hs : sepSet.contains b = false := by
      cases hsb : sepSet.contains b
      · rfl
      · rw [sepByte_field hsb] at hf; cases hf
    have hq : (b == 34) = false := by
      cases hb34 : (b == 34)
      · rfl
      · have : b = 34 := by simpa using hb34
        subst this
        cases hf
    have hsm : b ∉ sepSet := fun hm => by
      have he : sepSet.elem b = true := List.elem_iff.mpr hm
      rw [show sepSet.elem b = sepSet.contains b from rfl, hs] at he
      cases he
    simp [fcItem, ht, separatorP, hsm, quoted_none_of_head hq]

theorem many0fcF_suffix : ∀ (fuel : Nat) (input : List Nat), many0fcF fuel input <:+ input := by
  intro fuel
  induction fuel with
  | zero => exact fun input => List.suffix_refl input
  | succ fuel ih =>
    intro input
    unfold many0fcF
    cases hi : fcItem input with
    | none => exact List.suffix_refl input
    | some p => exact (ih p.1).trans (fcItem_suffix (v := p.2) (by rw [hi])).1

theorem field_content_some {input r v : List Nat} (h : field_content input = some (r, v)) :
    r <:+ input ∧ v ++ r = input := by
  unfold field_content at h
  obtain ⟨hr, hv⟩ := Prod.mk.injEq .. ▸ Option.some.injEq .. ▸ h
  have hsuf0 : many0fcF input.length input <:+ input := many0fcF_suffix input.length input
  constructor
  · rw [← hr]; exact hsuf0
  · rw [← hv, ← hr]; exact suffix_take_append hsuf0

theorem space0_eq (input : List Nat) :
    space0 input = some (input.dropWhile isSpaceTab, input.takeWhile isSpaceTab) := by
  show some (input.drop (input.takeWhile isSpaceTab).length, input.takeWhile isSpaceTab) = _
  rw [drop_length_takeWhile]

theorem dropWhile_append_headFails {p : Nat → Bool} {rest : List Nat}
    (hr : headFails p rest) (u : List Nat) :
    (u ++ rest).dropWhile p = u.dropWhile p ++ rest := by
  induction u with
  | nil =>
    cases rest with
    | nil => rfl
    | cons b t => simp [List.dropWhile_cons, hr b t rfl]
  | cons a u ih => by_cases ha : p a <;> simp [List.dropWhile_cons, ha, ih]

theorem headFails_token_of_field {l : List Nat} (h : headFails isFieldByte l) :
    headFails isTokenByte l := by
  intro b t e
  cases htb : isTokenByte b
  · rfl
  · have h1 := tokenByte_field htb
    rw [h b t e] at h1
    cases h1

theorem tagColon_some {input r v : List Nat} (h : tagColon input = some (r, v)) :
    input = 58 :: r := by
  cases input with
  | nil => cases h
  | cons b t =>
    simp only [tagColon] at h
    by_cases hb : (b == 58) = true
    · rw [if_pos hb] at h
      obtain ⟨hr, -⟩ := Prod.mk.injEq .. ▸ Option.some.injEq .. ▸ h
      have : b = 58 := by simpa using hb
      subst this
      rw [hr]
    · rw [if_neg hb] at h; cases h

theorem line_ending_some {input r t : List Nat} (h : line_ending input = some (r, t)) :
    (t = [13, 10] ∨ t = [10]) ∧ input = t ++ r := by
  cases input with
  | nil => cases h
  | cons b rest =>
    simp only [line_ending] at h
    by_cases hb : (b == 10) = true
    · rw [if_pos hb] at h
      obtain ⟨hr, ht⟩ := Prod.mk.injEq .. ▸ Option.some.injEq .. ▸ h
      have : b = 10 := by simpa using hb
      subst this
      exact ⟨Or.inr ht.symm, by rw [← ht, hr]; rfl⟩
    · rw [if_neg hb] at h
      by_cases hb13 : (b == 13) = true
      · rw [if_pos hb13] at h
        cases rest with
        | nil => cases h
        | cons c rest2 =>
          change (if (c == 10) = true then some (rest2, [13, 10]) else none) = some (r, t) at h
          by_cases hc : (c == 10) = true
          · rw [if_pos hc] at h
            obtain ⟨hr, ht⟩ := Prod.mk.injEq .. ▸ Option.some.injEq .. ▸ h
            have hb13e : b = 13 := by simpa using hb13
            have hce : c = 10 := by simpa using hc
            subst hb13e; subst hce
            exact ⟨Or.inl ht.symm, by rw [← ht, hr]; rfl⟩
          · rw [if_neg hc] at h; cases h
      · rw [if_neg hb13] at h; cases h

/-! ## Inversion lemmas for `generic_field`, the fold and `parse_headers` -/

/-- The monadic sequencing of `generic_field`, written with explicit
`Option.bind` (definitionally equal, by structure eta). -/
theorem generic_field_bindEq (input : List Nat) :
    generic_field input =
      (token input).bind fun x1 =>
      (tagColon x1.1).bind fun x2 =>
      (space0 x2.1).bind fun x3 =>
      (field_content x3.1).bind fun x4 =>
      (line_ending x4.1).bind fun x5 =>
      some (x5.1, (x1.2, x4.2)) := rfl

/-- The monadic sequencing of `parse_headers`, with explicit `Option.bind`. -/
theorem parse_headers_bindEq (input : List Nat) :
    parse_headers input =
      (generic_field input).bind fun x1 =>
      (line_ending (foldFieldsF insertField x1.1.length (insertField [] x1.2) x1.1).1).bind
        fun x2 =>
      some (x2.1, (foldFieldsF insertField x1.1.length (insertField [] x1.2) x1.1).2) := rfl

/-- The monadic sequencing of `parse_headers_struct`, with explicit
`Option.bind`. -/
theorem parse_headers_struct_bindEq (input : List Nat) :
    parse_headers_struct input =
      (generic_field input).bind fun x1 =>
      (line_ending (foldFieldsF (fun _ _ => ()) x1.1.length () x1.1).1).bind fun x2 =>
      some (x2.1, (foldFieldsF (fun _ _ => ()) x1.1.length () x1.1).2) := rfl

theorem generic_field_some {input r : List Nat} {kv : List Nat × List Nat}
    (h : generic_field input = some (r, kv)) :
    r <:+ input ∧ r.length < input.length := by
  rw [generic_field_bindEq] at h
  simp only [Option.bind_eq_some, Option.some.injEq, Prod.mk.injEq] at h
  obtain ⟨⟨r1, name⟩, ht, ⟨r2, cv⟩, hc, ⟨r3, sp⟩, hsp, ⟨r4, value⟩, hfc, ⟨r5, te⟩, hle,
    hr5, hkv⟩ := h
  dsimp only at hc hsp hfc hle
  subst hr5
  dsimp only
  obtain ⟨hsuf1, hlt1⟩ := token_suffix ht
  have h12 : r1 = 58 :: r2 := tagColon_some hc
  have hsuf2 : r2 <:+ r1 := by rw [h12]; exact List.suffix_cons 58 r2
  have hsp3 : r3 = r2.dropWhile isSpaceTab := by
    rw [space0_eq r2] at hsp
    exact (Prod.mk.injEq .. ▸ Option.some.injEq .. ▸ hsp).1.symm
  have hsuf3 : r3 <:+ r2 := by
    rw [hsp3, ← drop_length_takeWhile]
    exact List.drop_suffix _ r2
  obtain ⟨hsuf4, -⟩ := field_content_some hfc
  obtain ⟨hterms, hterm⟩ := line_ending_some hle
  have hsuf5 : r5 <:+ r4 := by rw [hterm]; exact List.suffix_append te r5
  have hlt5 : r5.length < r4.length := by
    have hlen := congrArg List.length hterm
    simp only [List.length_append] at hlen
    have hte : 0 < te.length := by rcases hterms with rfl | rfl <;> simp
    omega
  have hsufAll : r5 <:+ input :=
    (((hsuf5.trans hsuf4).trans hsuf3).trans hsuf2).trans hsuf1
  refine ⟨hsufAll, ?_⟩
  have l4 : r4.length ≤ r3.length := hsuf4.length_le
  have l3 : r3.length ≤ r2.length := hsuf3.length_le
  have l2 : r2.length < r1.length := by rw [h12]; simp
  omega

theorem foldFieldsF_suffix {α : Type} (step : α → List Nat × List Nat → α) :
    ∀ (fuel : Nat) (acc : α) (input : List Nat),
      (foldFieldsF step fuel acc input).1 <:+ input := by
  intro fuel
  induction fuel with
  | zero => exact fun acc input => List.suffix_refl input
  | succ fuel ih =>
    intro acc input
    simp only [foldFieldsF]
    cases hg : generic_field input with
    | none => exact List.suffix_refl input
    | some p =>
      obtain ⟨rest, kv⟩ := p
      exact (ih (step acc kv) rest).trans (generic_field_some hg).1

theorem foldFieldsF_fst_indep {α β : Type} (s1 : α → List Nat × List Nat → α)
    (s2 : β → List Nat × List Nat → β) :
    ∀ (fuel : Nat) (a : α) (b : β) (input : List Nat),
      (foldFieldsF s1 fuel a input).1 = (foldFieldsF s2 fuel b input).1 := by
  intro fuel
  induction fuel with
  | zero => intro a b input; rfl
  | succ fuel ih =>
    intro a b input
    simp only [foldFieldsF]
    cases hg : generic_field input with
    | none => rfl
    | some p =>
      obtain ⟨rest, kv⟩ := p
      exact ih (s1 a kv) (s2 b kv) rest

/-- Adequacy of the fuel: with fuel at least the input length, the fold has
reached its fixed point (every iteration consumes at least one byte). -/
theorem foldFieldsF_fuel_stable {α : Type} (step : α → List Nat × List Nat → α) :
    ∀ (fuel : Nat) (acc : α) (input : List Nat), input.length ≤ fuel →
      foldFieldsF step (fuel + 1) acc input = foldFieldsF step fuel acc input := by
  intro fuel
  induction fuel with
  | zero =>
    intro acc input hlen
    have : input = [] := List.eq_nil_of_length_eq_zero (Nat.le_zero.mp hlen)
    subst this
    have hg : generic_field [] = none := rfl
    simp [foldFieldsF, hg]
  | succ fuel ih =>
    intro acc input hlen
    rw [show foldFieldsF step (fuel + 1 + 1) acc input =
          (match generic_field input with
           | none => (input, acc)
           | some (rest, kv) => foldFieldsF step (fuel + 1) (step acc kv) rest) from rfl]
    rw [show foldFieldsF step (fuel + 1) acc input =
          (match generic_field input with
           | none => (input, acc)
           | some (rest, kv) => foldFieldsF step fuel (step acc kv) rest) from rfl]
    cases hg : generic_field input with
    | none => rfl
    | some p =>
      obtain ⟨rest, kv⟩ := p
      have hlt : rest.length < input.length := (generic_field_some hg).2
      exact ih (step acc kv) rest (by omega)

/-- Adequacy of the fuel for the `many0` loop of `field_content`. -/
theorem many0fcF_fuel_stable :
    ∀ (fuel : Nat) (input : List Nat), input.length ≤ fuel →
      many0fcF (fuel + 1) input = many0fcF fuel input := by
  intro fuel
  induction fuel with
  | zero =>
    intro input hlen
    have : input = [] := List.eq_nil_of_length_eq_zero (Nat.le_zero.mp hlen)
    subst this
    rfl
  | succ fuel ih =>
    intro input hlen
    rw [show many0fcF (fuel + 1 + 1) input =
          (match fcItem input with
           | none => input
           | some (rest, _) => many0fcF (fuel + 1) rest) from rfl]
    rw [show many0fcF (fuel + 1) input =
          (match fcItem input with
           | none => input
           | some (rest, _) => many0fcF fuel rest) from rfl]
    cases hi : fcItem input with
    | none => rfl
    | some p =>
      obtain ⟨rest, v⟩ := p
      have hlt : rest.length < input.length := (fcItem_suffix hi).2
      exact ih rest (by omega)

/-- Structural decomposition of a successful parse: the input is the header
bytes, then the blank-line terminator, then exactly the returned body. -/
theorem parse_headers_split {input body : List Nat} {m : HMap}
    (h : parse_headers input = some (body, m)) :
    ∃ pre t, (t = [13, 10] ∨ t = [10]) ∧ input = pre ++ t ++ body := by
  rw [parse_headers_bindEq] at h
  simp only [Option.bind_eq_some, Option.some.injEq, Prod.mk.injEq] at h
  obtain ⟨⟨rest, kv⟩, hg, ⟨body2, te⟩, hle, hb, hm⟩ := h
  dsimp only at hle
  subst hb
  obtain ⟨hterm, hr1⟩ := line_ending_some hle
  have hsufRest : rest <:+ input := (generic_field_some hg).1
  have hsufFold : (foldFieldsF insertField rest.length (insertField [] kv) rest).1 <:+ rest :=
    foldFieldsF_suffix insertField rest.length (insertField [] kv) rest
  obtain ⟨pre, hpre⟩ := hsufFold.trans hsufRest
  refine ⟨pre, te, hterm, ?_⟩
  rw [← hpre, hr1, List.append_assoc]

/-! ## Completeness: the parser succeeds on well-formed rendered blocks -/

theorem headFails_term {p : Nat → Bool} {t : List Nat} (x : List Nat)
    (ht : t = [13, 10] ∨ t = [10]) (h13 : p 13 = false) (h10 : p 10 = false) :
    headFails p (t ++ x) := by
  rcases ht with rfl | rfl <;> rintro b tl ⟨⟩ <;> assumption

theorem sepByte_not_token {b : Nat} (h : sepSet.contains b = true) :
    isTokenByte b = false := by
  have hb : b ∈ sepSet := List.elem_iff.mp h
  simp only [sepSet, List.mem_cons, List.not_mem_nil, or_false] at hb
  rcases hb with rfl | rfl | rfl | rfl | rfl | rfl | rfl | rfl | rfl | rfl | rfl | rfl |
    rfl | rfl | rfl | rfl | rfl | rfl | rfl <;> rfl

theorem fcItem_fieldRun {u rest : List Nat} (hu : u ≠ [])
    (hall : ∀ b ∈ u, isFieldByte b = true) (hr : headFails isFieldByte rest) :
    ∃ u1 u2, u1 ++ u2 = u ∧ u1 ≠ [] ∧ fcItem (u ++ rest) = some (u2 ++ rest, u1) := by
  cases u with
  | nil => exact absurd rfl hu
  | cons a tl =>
    rcases fieldByte_cases (hall a (by simp)) with htok | hsep
    · refine ⟨(a :: tl).takeWhile isTokenByte, (a :: tl).dropWhile isTokenByte,
        List.takeWhile_append_dropWhile isTokenByte (a :: tl), ?_, ?_⟩
      · simp [List.takeWhile_cons, htok]
      · have hrt : headFails isTokenByte rest := headFails_token_of_field hr
        have hpre : ((a :: tl) ++ rest).takeWhile isTokenByte = (a :: tl).takeWhile isTokenByte :=
          takeWhile_append_headFails hrt (a :: tl)
        have hne : ¬((a :: tl) ++ rest).takeWhile isTokenByte = [] := by
          rw [hpre]
          simp [List.takeWhile_cons, htok]
        have hdrop : ((a :: tl) ++ rest).drop
            (((a :: tl) ++ rest).takeWhile isTokenByte).length =
            (a :: tl).dropWhile isTokenByte ++ rest := by
          rw [drop_length_takeWhile, dropWhile_append_headFails hrt]
        have htk : token ((a :: tl) ++ rest) =
            some ((a :: tl).dropWhile isTokenByte ++ rest, (a :: tl).takeWhile isTokenByte) := by
          simp only [token]
          rw [if_neg (by simpa [List.isEmpty_iff] using hne)]
          rw [hdrop, hpre]
        simp only [List.cons_append] at htk
        simp [fcItem, htk]
    · have hat : isTokenByte a = false := sepByte_not_token hsep
      refine ⟨[a], tl, rfl, by simp, ?_⟩
      have htk : token ((a :: tl) ++ rest) = none := by
        simp [token, List.takeWhile_cons, hat]
      have hmem : a ∈ sepSet := List.elem_iff.mp hsep
      simp only [List.cons_append] at htk
      simp [fcItem, htk, separatorP, hmem]

theorem many0fcF_run : ∀ (fuel : Nat) (u rest : List Nat),
    (∀ b ∈ u, isFieldByte b = true) → headFails isFieldByte rest →
    u.length ≤ fuel → many0fcF fuel (u ++ rest) = rest := by
  intro fuel
  induction fuel with
  | zero =>
    intro u rest hall hr hlen
    have : u = [] := List.eq_nil_of_length_eq_zero (Nat.le_zero.mp hlen)
    subst this
    rfl
  | succ fuel ih =>
    intro u rest hall hr hlen
    cases u with
    | nil =>
      simp only [List.nil_append]
      rw [show many0fcF (fuel + 1) rest =
            (match fcItem rest with
             | none => rest
             | some (r2, _) => many0fcF fuel r2) from rfl]
      rw [fcItem_none_of_headFails hr]
    | cons a tl =>
      obtain ⟨u1, u2, hu12, hne1, hfc⟩ := fcItem_fieldRun (by simp) hall hr
      rw [show many0fcF (fuel + 1) ((a :: tl) ++ rest) =
            (match fcItem ((a :: tl) ++ rest) with
             | none => (a :: tl) ++ rest
             | some (r2, _) => many0fcF fuel r2) from rfl]
      rw [hfc]
      have hlen12 := congrArg List.length hu12
      simp only [List.length_append, List.length_cons] at hlen12
      have hne1len : 0 < u1.length := List.length_pos.mpr hne1
      simp only [List.length_cons] at hlen
      refine ih u2 rest (fun b hb => hall b ?_) hr (by omega)
      rw [← hu12]
      exact List.mem_append_right u1 hb

theorem field_content_exact {u rest : List Nat}
    (hall : ∀ b ∈ u, isFieldByte b = true) (hr : headFails isFieldByte rest) :
    field_content (u ++ rest) = some (rest, u) := by
  have hrun : many0fcF (u ++ rest).length (u ++ rest) = rest :=
    many0fcF_run (u ++ rest).length u rest hall hr (by simp [List.length_append])
  show some (many0fcF (u ++ rest).length (u ++ rest),
      (u ++ rest).take ((u ++ rest).length - (many0fcF (u ++ rest).length (u ++ rest)).length))
    = some (rest, u)
  rw [hrun]
  have harith : (u ++ rest).length - rest.length = u.length := by
    simp [List.length_append]
  rw [harith, List.take_left]

theorem line_ending_exact {t rest : List Nat} (ht : t = [13, 10] ∨ t = [10]) :
    line_ending (t ++ rest) = some (rest, t) := by
  rcases ht with rfl | rfl <;> simp [line_ending]

theorem token_fails_term {t body : List Nat} (ht : t = [13, 10] ∨ t = [10]) :
    token (t ++ body) = none :=
  token_none_of_headFails (headFails_term body ht (by decide) (by decide))

theorem generic_field_none_term {t body : List Nat} (ht : t = [13, 10] ∨ t = [10]) :
    generic_field (t ++ body) = none := by
  rw [generic_field_bindEq, token_fails_term ht]
  rfl

theorem generic_field_exact {n v t rest0 : List Nat} (hn : n ≠ [])
    (hnall : ∀ b ∈ n, isTokenByte b = true) (hvall : ∀ b ∈ v, isFieldByte b = true)
    (ht : t = [13, 10] ∨ t = [10]) :
    generic_field (n ++ [58] ++ v ++ t ++ rest0) =
      some (rest0, (n, v.dropWhile isSpaceTab)) := by
  have hform : n ++ [58] ++ v ++ t ++ rest0 = n ++ (58 :: (v ++ (t ++ rest0))) := by
    simp [List.append_assoc]
  rw [hform]
  have htfails : headFails isTokenByte (58 :: (v ++ (t ++ rest0))) := by
    rintro b tl ⟨⟩; rfl
  have htok : token (n ++ (58 :: (v ++ (t ++ rest0)))) =
      some (58 :: (v ++ (t ++ rest0)), n) := token_exact hn hnall htfails
  have hcolon : tagColon (58 :: (v ++ (t ++ rest0))) = some (v ++ (t ++ rest0), [58]) := by
    simp [tagColon]
  have hspfails : headFails isSpaceTab (t ++ rest0) :=
    headFails_term rest0 ht (by decide) (by decide)
  have hsp : space0 (v ++ (t ++ rest0)) =
      some (v.dropWhile isSpaceTab ++ (t ++ rest0), v.takeWhile isSpaceTab) := by
    rw [space0_eq, dropWhile_append_headFails hspfails, takeWhile_append_headFails hspfails]
  have hffails : headFails isFieldByte (t ++ rest0) :=
    headFails_term rest0 ht (by decide) (by decide)
  have hdall : ∀ b ∈ v.dropWhile isSpaceTab, isFieldByte b = true := fun b hb =>
    hvall b ((List.dropWhile_sublist isSpaceTab (l := v)).mem hb)
  have hfc : field_content (v.dropWhile isSpaceTab ++ (t ++ rest0)) =
      some (t ++ rest0, v.dropWhile isSpaceTab) := field_content_exact hdall hffails
  have hle : line_ending (t ++ rest0) = some (rest0, t) := line_ending_exact ht
  rw [generic_field_bindEq]
  simp only [htok, hcolon, hsp, hfc, hle, Option.some_bind]

theorem foldFields_render {α : Type} (step : α → List Nat × List Nat → α)
    {t : List Nat} (htm : t = [13, 10] ∨ t = [10]) (body : List Nat) :
    ∀ (fts : List ((List Nat × List Nat) × List Nat)) (acc : α) (fuel : Nat),
      (∀ ft ∈ fts, fieldTermOk ft) →
      (renderBlock fts t body).length ≤ fuel →
      foldFieldsF step fuel acc (renderBlock fts t body) =
        (t ++ body,
         fts.foldl (fun a ft => step a (ft.1.1, ft.1.2.dropWhile isSpaceTab)) acc) := by
  intro fts
  induction fts with
  | nil =>
    intro acc fuel hok hfuel
    have hrb : renderBlock [] t body = t ++ body := by simp [renderBlock]
    rw [hrb]
    cases fuel with
    | zero => simp [foldFieldsF]
    | succ fuel =>
      rw [show foldFieldsF step (fuel + 1) acc (t ++ body) =
            (match generic_field (t ++ body) with
             | none => (t ++ body, acc)
             | some (rest, kv) => foldFieldsF step fuel (step acc kv) rest) from rfl]
      rw [generic_field_none_term htm]
      simp
  | cons ft fts ih =>
    intro acc fuel hok hfuel
    obtain ⟨hn, hnall, hvall, hterm⟩ := hok ft (by simp)
    have hrb : renderBlock (ft :: fts) t body =
        ft.1.1 ++ [58] ++ ft.1.2 ++ ft.2 ++ renderBlock fts t body := by
      simp [renderBlock, renderFieldT, List.append_assoc]
    have hg : generic_field (ft.1.1 ++ [58] ++ ft.1.2 ++ ft.2 ++ renderBlock fts t body) =
        some (renderBlock fts t body, (ft.1.1, ft.1.2.dropWhile isSpaceTab)) :=
      generic_field_exact hn hnall hvall hterm
    have hlen1 : 0 < ft.1.1.length := List.length_pos.mpr hn
    have hlenEq : (renderBlock (ft :: fts) t body).length =
        ft.1.1.length + 1 + ft.1.2.length + ft.2.length + (renderBlock fts t body).length := by
      rw [hrb]
      simp only [List.length_append, List.length_cons, List.length_nil]
    cases fuel with
    | zero =>
      exfalso
      rw [hlenEq] at hfuel
      omega
    | succ fuel =>
      rw [hrb]
      rw [show foldFieldsF step (fuel + 1) acc
            (ft.1.1 ++ [58] ++ ft.1.2 ++ ft.2 ++ renderBlock fts t body) =
            (match generic_field (ft.1.1 ++ [58] ++ ft.1.2 ++ ft.2 ++ renderBlock fts t body)
             with
             | none => (ft.1.1 ++ [58] ++ ft.1.2 ++ ft.2 ++ renderBlock fts t body, acc)
             | some (rest, kv) => foldFieldsF step fuel (step acc kv) rest) from rfl]
      rw [hg]
      show foldFieldsF step fuel (step acc (ft.1.1, ft.1.2.dropWhile isSpaceTab))
          (renderBlock fts t body) =
        (t ++ body,
         (ft :: fts).foldl (fun a f => step a (f.1.1, f.1.2.dropWhile isSpaceTab)) acc)
      have hfuel2 : (renderBlock fts t body).length ≤ fuel := by
        rw [hlenEq] at hfuel
        omega
      rw [ih (step acc (ft.1.1, ft.1.2.dropWhile isSpaceTab)) fuel
        (fun f hf => hok f (by simp [hf])) hfuel2]
      rfl

/-- Completeness of the header parser: a well-formed rendered block parses
to exactly its body and the map of its fields (later duplicates winning),
independent of which of the two line terminators each line uses. -/
theorem parse_render {t : List Nat} (htm : t = [13, 10] ∨ t = [10])
    (body : List Nat) (fts : List ((List Nat × List Nat) × List Nat))
    (hne : fts ≠ []) (hok : ∀ ft ∈ fts, fieldTermOk ft) :
    parse_headers (renderBlock fts t body) =
      some (body, buildMap (fts.map Prod.fst)) := by
  cases fts with
  | nil => exact absurd rfl hne
  | cons ft fts =>
    obtain ⟨hn, hnall, hvall, hterm⟩ := hok ft (by simp)
    have hrb : renderBlock (ft :: fts) t body =
        ft.1.1 ++ [58] ++ ft.1.2 ++ ft.2 ++ renderBlock fts t body := by
      simp [renderBlock, renderFieldT, List.append_assoc]
    have hg : generic_field (ft.1.1 ++ [58] ++ ft.1.2 ++ ft.2 ++ renderBlock fts t body) =
        some (renderBlock fts t body, (ft.1.1, ft.1.2.dropWhile isSpaceTab)) :=
      generic_field_exact hn hnall hvall hterm
    have hfold := foldFields_render insertField htm body fts
      (insertField [] (ft.1.1, ft.1.2.dropWhile isSpaceTab)) (renderBlock fts t body).length
      (fun f hf => hok f (by simp [hf])) (Nat.le_refl _)
    rw [hrb, parse_headers_bindEq, hg, Option.some_bind]
    dsimp only
    rw [hfold]
    dsimp only
    rw [line_ending_exact htm, Option.some_bind]
    have hmap : buildMap ((ft :: fts).map Prod.fst) =
        fts.foldl (fun a f => insertField a (f.1.1, f.1.2.dropWhile isSpaceTab))
          (insertField [] (ft.1.1, ft.1.2.dropWhile isSpaceTab)) := by
      simp only [buildMap, List.map_cons, List.foldl_cons, List.foldl_map]
    rw [hmap]

/-! ## Concrete fixtures for the claims -/

/-- A `Cli` value with every option at its default. -/
def cliBase : Cli :=
  { address := ""
    url := none
    data := none
    server_document_root := none
    script_name := none
    env_vars := []
    env_clear := false
    env_full := false
    response_headers_dump_file := none
    response_headers_include := false
    response_status_fail_on_gte_400 := false
    output_directory := none
    output_file_name := none
    output_file_remote_name := false
    stderr_file_name := none
    request_method := "GET" }

/-- The URL of the parameter-derivation example:
`https://example.com/app/show?id=5`. -/
def urlParamEx : Url :=
  { scheme := "https"
    host := some (UrlHost.domain "example.com")
    path := "/app/show"
    query := some "id=5" }

/-- The options of the parameter-derivation example: script-name override
`/app`, document root `/srv/www`. -/
def cliParamEx : Cli :=
  { cliBase with
    url := some urlParamEx
    script_name := some "/app"
    server_document_root := some "/srv/www" }

/-- Options with an output directory and a stderr file configured. -/
def cliOutDir : Cli :=
  { cliBase with
    output_directory := some "out"
    stderr_file_name := some "err.txt" }

/-- A URL whose path ends in a slash. -/
def urlRemoteSlash : Url :=
  { scheme := "https"
    host := some (UrlHost.domain "example.com")
    path := "/a/b/"
    query := none }

/-- Remote-name mode with a trailing-slash URL path. -/
def cliRemoteSlash : Cli :=
  { cliBase with
    url := some urlRemoteSlash
    output_file_remote_name := true }

/-- A URL with a normal two-segment path. -/
def urlRemoteOk : Url :=
  { scheme := "https"
    host := some (UrlHost.domain "example.com")
    path := "/x/y"
    query := none }

/-- Remote-name mode with a normal URL path. -/
def cliRemoteOk : Cli :=
  { cliBase with
    url := some urlRemoteOk
    output_file_remote_name := true }

/-- Options with the fail-on-status policy enabled. -/
def cliFail : Cli :=
  { cliBase with response_status_fail_on_gte_400 := true }

/-! ## Claim C1 -/

/-- C1, counterexample: for the example URL, script override and root, the
produced parameter set maps REQUEST_URI to the full URL path plus query,
`/app/show?id=5`, not to `/show?id=5` as the claim states: the source
formats the request URI from `url.path()`, not from the path info. -/
theorem c1_request_uri_counterexample :
    hmGet (set_from_cli [] cliParamEx) "REQUEST_URI" = some "/app/show?id=5" ∧
    hmGet (set_from_cli [] cliParamEx) "REQUEST_URI" ≠ some "/show?id=5" :=
  ⟨rfl, by decide⟩

/-- C1, amended: for URL `https://example.com/app/show?id=5` with
script-name override `/app` and document root `/srv/www`, the Parameter
Deriver produces PATH_INFO=/show, PATH_TRANSLATED=/srv/www/show,
HTTP_HOST=example.com, QUERY_STRING=id=5, REQUEST_URI=/app/show?id=5
(the full URL path plus query), and HTTPS=on. -/
theorem c1_parameter_derivation_amended :
    hmGet (set_from_cli [] cliParamEx) "PATH_INFO" = some "/show" ∧
    hmGet (set_from_cli [] cliParamEx) "PATH_TRANSLATED" = some "/srv/www/show" ∧
    hmGet (set_from_cli [] cliParamEx) "HTTP_HOST" = some "example.com" ∧
    hmGet (set_from_cli [] cliParamEx) "QUERY_STRING" = some "id=5" ∧
    hmGet (set_from_cli [] cliParamEx) "REQUEST_URI" = some "/app/show?id=5" ∧
    hmGet (set_from_cli [] cliParamEx) "HTTPS" = some "on" :=
  ⟨rfl, rfl, rfl, rfl, rfl, rfl⟩

/-! ## Claim C3 -/

/-- C3: with an output directory `out` configured, a named output file
`result.txt` is opened at `result.txt/out` — the source joins the
directory onto the file name, the reverse of resolving the file name
relative to the directory — and likewise for the stderr dump file; so the
file is not created inside the configured directory as the claim (and the
option's own help text) state. -/
theorem c3_output_dir_join_order :
    resolve_output_path cliOutDir "result.txt" = "result.txt/out" ∧
    handle_response_stderr cliOutDir (strBytes "e") =
      ([(Dest.file "err.txt/out", strBytes "e")], none) ∧
    ("result.txt/out" : String) ≠ "out/result.txt" :=
  ⟨rfl, rfl, by decide⟩

/-! ## Claim C4 -/

/-- C4, counterexample: in remote-name mode, a URL path ending in a slash
yields the empty file name, not the last non-empty segment `b`. -/
theorem c4_remote_name_counterexample :
    real_output_file_name cliRemoteSlash = .ok (some "") ∧ ("" : String) ≠ "b" :=
  ⟨rfl, by decide⟩

/-- C4, amended: in remote-name mode the chosen output file name is the
last path segment of the target URL's path — possibly the empty string
when the path ends in a slash — and `EmptyRemoteName` is returned only
when the segment iterator yields nothing at all. -/
theorem c4_remote_name_amended (cli : Cli) (u : Url) (segs : List String)
    (hrm : cli.output_file_remote_name = true) (hurl : cli.url = some u)
    (hsegs : u.path_segments = some segs) :
    (∀ s, segs.getLast? = some s → real_output_file_name cli = .ok (some s)) ∧
    (segs.getLast? = none → real_output_file_name cli = .error .emptyRemoteName) := by
  constructor
  · intro s hlast
    simp [real_output_file_name, hrm, hurl, hsegs, hlast]
  · intro hlast
    simp [real_output_file_name, hrm, hurl, hsegs, hlast]

/-- C4, witness: for the URL path `/x/y` the chosen name is `y`. -/
theorem c4_remote_name_amended_witness :
    real_output_file_name cliRemoteOk = .ok (some "y") :=
  (c4_remote_name_amended cliRemoteOk urlRemoteOk ["x", "y"] rfl rfl (by rfl)).1 "y" (by rfl)

/-! ## Claim C5 -/

/-- C5, counterexample: when primary-output routing aborts (here with
`MalformedHeaders`), the whole operation aborts before the diagnostic
stream is handled: no bytes at all are written, in particular the
diagnostic bytes are not written to the standard error stream. -/
theorem c5_stderr_counterexample :
    executeResponses cliBase (some (strBytes "garbage")) (some (strBytes "diag")) =
      ([], some RErr.malformedHeaders) ∧
    (Dest.stderrStream, strBytes "diag") ∉
      (executeResponses cliBase (some (strBytes "garbage")) (some (strBytes "diag"))).1 :=
  ⟨rfl, by decide⟩

/-- C5, amended: when primary-output routing succeeds, the diagnostic
bytes are written verbatim — never parsed as headers — to the configured
stderr file (resolved against the output directory) or to the standard
error stream; when primary routing aborts they are not written. -/
theorem c5_stderr_amended (cli : Cli) (sd ed : List Nat) (w : List (Dest × List Nat))
    (h : handle_response_stdout cli sd = (w, none)) :
    (cli.stderr_file_name = none →
      executeResponses cli (some sd) (some ed) =
        (w ++ [(Dest.stderrStream, ed)], none)) ∧
    (∀ f, cli.stderr_file_name = some f →
      executeResponses cli (some sd) (some ed) =
        (w ++ [(Dest.file (resolve_output_path cli f), ed)], none)) := by
  constructor
  · intro hnone
    simp [executeResponses, h, handle_response_stderr, hnone]
  · intro f hf
    simp [executeResponses, h, handle_response_stderr, hf]

/-- C5, witness: a well-formed primary stream routed to standard output,
then the diagnostic bytes go to standard error. -/
theorem c5_stderr_amended_witness :
    executeResponses cliBase (some (strBytes "A: b\r\n\r\nxy")) (some (strBytes "diag")) =
      ([(Dest.stdoutStream, strBytes "xy")] ++ [(Dest.stderrStream, strBytes "diag")], none) :=
  (c5_stderr_amended cliBase (strBytes "A: b\r\n\r\nxy") (strBytes "diag")
    [(Dest.stdoutStream, strBytes "xy")] (by rfl)).1 rfl

/-! ## Claim C2 -/

theorem real_output_file_name_error {cli : Cli} {e : RErr}
    (h : real_output_file_name cli = .error e) :
    e = .emptyRemoteName ∨ e = .unwrapPanic := by
  unfold real_output_file_name at h
  split at h
  · split at h
    · cases h; exact Or.inr rfl
    · split at h
      · cases h; exact Or.inr rfl
      · split at h
        · cases h; exact Or.inl rfl
        · cases h
  · cases h

theorem outDest_error {cli : Cli} {e : RErr} (h : outDest cli = .error e) :
    e = .emptyRemoteName ∨ e = .unwrapPanic := by
  unfold outDest at h
  cases hr : real_output_file_name cli with
  | error e2 =>
    rw [hr] at h
    have : e2 = e := Except.error.injEq .. ▸ h
    subst this
    exact real_output_file_name_error hr
  | ok fn =>
    rw [hr] at h
    cases fn <;> cases h

/-- C2: under the fail-on-status policy, once the response headers parse
and a status has been extracted, the operation aborts with
`UpstreamError(status)` exactly when the status is strictly greater than
400 — a status of exactly 400 does not abort — and on abort the write list
is empty: no header-dump or body bytes reach any output destination. -/
theorem c2_fail_on_status_strict (cli : Cli) (data body : List Nat) (headers : HMap)
    (s : Nat) (hfail : cli.response_status_fail_on_gte_400 = true)
    (hparse : parse_headers data = some (body, headers))
    (hstatus : statusOf headers = .ok s) :
    (400 < s → handle_response_stdout cli data = ([], some (.upstreamError s))) ∧
    (s ≤ 400 → ∀ w e, handle_response_stdout cli data ≠ (w, some (.upstreamError e))) := by
  have hneed : need_parse_header cli = true := by simp [need_parse_header, hfail]
  constructor
  · intro hgt
    simp [handle_response_stdout, hneed, hparse, hfail, hstatus, hgt]
  · intro hle w e hcontra
    have hnotgt : ¬(400 < s) := by omega
    cases hd : cli.response_headers_dump_file with
    | none =>
      cases ho : outDest cli with
      | error e2 =>
        simp [handle_response_stdout, hneed, hparse, hfail, hstatus, hnotgt, hd, ho]
          at hcontra
        rcases outDest_error ho with h1 | h1 <;> rw [h1] at hcontra <;> simp at hcontra
      | ok d =>
        simp [handle_response_stdout, hneed, hparse, hfail, hstatus, hnotgt, hd, ho]
          at hcontra
    | some f =>
      cases ho : outDest cli with
      | error e2 =>
        simp [handle_response_stdout, hneed, hparse, hfail, hstatus, hnotgt, hd, ho]
          at hcontra
        rcases outDest_error ho with h1 | h1 <;> rw [h1] at hcontra <;> simp at hcontra
      | ok d =>
        simp [handle_response_stdout, hneed, hparse, hfail, hstatus, hnotgt, hd, ho]
          at hcontra

/-- C2, witness: the end-to-end scenario of the specification — response
buffer `Status: 500 Error` and a body, with fail-on-status requested,
aborts with status 500 and writes nothing. -/
theorem c2_fail_on_status_strict_witness :
    handle_response_stdout cliFail (strBytes "Status: 500 Error\r\n\r\nfail") =
      ([], some (.upstreamError 500)) :=
  (c2_fail_on_status_strict cliFail (strBytes "Status: 500 Error\r\n\r\nfail")
    (strBytes "fail") [("status", "500 Error")] 500 rfl (by rfl) (by rfl)).1 (by decide)

/-! ## Claim C9 -/

/-- C9: status extraction reads the key `status` of the parsed map — a
lookup that is case-insensitive with respect to the original header names
because the parser lowercases every name; an absent key yields 200, and a
present key has the first ASCII-whitespace-delimited token of its value
parsed as an unsigned 16-bit integer, `InvalidStatusValue` resulting
exactly when that token is missing or is not a valid such integer. -/
theorem c9_status_extraction :
    (∀ h : HMap, hmGet h "status" = none → statusOf h = .ok 200) ∧
    (∀ (h : HMap) (v : String) (n : Nat), hmGet h "status" = some v →
      (statusOf h = .ok n ↔ parseU16 (firstAsciiWsToken v) = some n)) ∧
    (∀ (h : HMap) (v : String), hmGet h "status" = some v →
      (statusOf h = .error .invalidStatusValue ↔ parseU16 (firstAsciiWsToken v) = none)) ∧
    parse_headers (strBytes "STATUS: 404 Not Found\r\n\r\n") =
      some ([], [("status", "404 Not Found")]) ∧
    statusOf [("status", "404 Not Found")] = .ok 404 ∧
    statusOf [("status", "banana")] = .error .invalidStatusValue ∧
    statusOf [("status", "")] = .error .invalidStatusValue := by
  refine ⟨?_, ?_, ?_, rfl, rfl, rfl, rfl⟩
  · intro h hnone
    simp [statusOf, hnone]
  · intro h v n hsome
    simp only [statusOf, hsome]
    cases hp : parseU16 (firstAsciiWsToken v) with
    | none => simp
    | some k => simp
  · intro h v hsome
    simp only [statusOf, hsome]
    cases hp : parseU16 (firstAsciiWsToken v) with
    | none => simp
    | some k => simp

/-- C9, witness: a map without a status entry yields the default 200. -/
theorem c9_status_extraction_witness :
    statusOf [("content-type", "text/html")] = .ok 200 :=
  c9_status_extraction.1 [("content-type", "text/html")] rfl

/-! ## Claim C6 -/

/-- C6: whenever the header parser succeeds, the first
`bufferLength - bodyLength` bytes of the input concatenated with the
returned body slice reproduce the original buffer exactly, and the body is
exactly the bytes following the blank-line terminator. -/
theorem c6_round_trip (input body : List Nat) (m : HMap)
    (h : parse_headers input = some (body, m)) :
    input.take (input.length - body.length) ++ body = input ∧
    ∃ pre t, (t = [13, 10] ∨ t = [10]) ∧ input = pre ++ t ++ body := by
  obtain ⟨pre, t, ht, hsplit⟩ := parse_headers_split h
  refine ⟨?_, pre, t, ht, hsplit⟩
  have hsuf : body <:+ input := by
    rw [hsplit]
    exact List.suffix_append (pre ++ t) body
  exact suffix_take_append hsuf

/-- C6, witness: a concrete one-field response buffer with body `xy`. -/
theorem c6_round_trip_witness :
    (strBytes "A: b\r\n\r\nxy").take
        ((strBytes "A: b\r\n\r\nxy").length - (strBytes "xy").length) ++ strBytes "xy" =
      strBytes "A: b\r\n\r\nxy" ∧
    ∃ pre t, (t = [13, 10] ∨ t = [10]) ∧
      strBytes "A: b\r\n\r\nxy" = pre ++ t ++ strBytes "xy" :=
  c6_round_trip (strBytes "A: b\r\n\r\nxy") (strBytes "xy") [("a", "b")] (by rfl)

/-! ## Claim C7 -/

/-- C7: the parser's success is a purely structural matter — it succeeds
exactly when the structure-only parse (which never decodes a byte)
succeeds, so the total Latin-1 decoding contributes no failure mode — and
it fails, returning no partial map, on the three malformed shapes: zero
generic fields before the blank-line terminator, a forbidden byte in a
header name, and a buffer exhausted without a blank-line terminator. -/
theorem c7_structural_failure :
    (∀ input : List Nat, (parse_headers input).isSome = (parse_headers_struct input).isSome) ∧
    parse_headers (strBytes "\r\n") = none ∧
    parse_headers (strBytes "Bad@Name: x\r\n\r\nbody") = none ∧
    parse_headers (strBytes "A: b\r\nmore") = none ∧
    parse_headers (strBytes "A: b\r\n\r\n") = some ([], [("a", "b")]) := by
  refine ⟨?_, rfl, rfl, rfl, rfl⟩
  intro input
  rw [parse_headers_bindEq, parse_headers_struct_bindEq]
  cases hg : generic_field input with
  | none => rfl
  | some p =>
    obtain ⟨rest, kv⟩ := p
    simp only [Option.some_bind]
    rw [foldFieldsF_fst_indep insertField (fun _ _ => ()) rest.length
      (insertField [] kv) () rest]
    cases hle : line_ending (foldFieldsF (fun _ _ => ()) rest.length () rest).1 with
    | none => rfl
    | some q => simp [hle]

/-! ## Claim C8 -/

theorem latin1_append (a b : List Nat) :
    latin1_to_string (a ++ b) = latin1_to_string a ++ latin1_to_string b := by
  simp only [latin1_to_string, List.map_append]
  rfl

/-- C8: a successfully parsed field whose value contains a quoted-string
keeps the surrounding quote characters and every embedded separator byte
verbatim: the captured value is exactly the Latin-1 decoding of the raw
field-content span, with no normalization or un-escaping. -/
theorem c8_quoted_verbatim (n v pre mid post body : List Nat)
    (hn : n ≠ []) (hnall : ∀ b ∈ n, isTokenByte b = true)
    (hvall : ∀ b ∈ v, isFieldByte b = true)
    (hnosp : v.dropWhile isSpaceTab = v)
    (hq : v = pre ++ [34] ++ mid ++ [34] ++ post) :
    parse_headers (renderBlock [((n, v), [13, 10])] [13, 10] body) =
      some (body, [(asciiLower (latin1_to_string n), latin1_to_string v)]) ∧
    latin1_to_string v =
      latin1_to_string pre ++ "\"" ++ latin1_to_string mid ++ "\"" ++
        latin1_to_string post := by
  constructor
  · rw [parse_render (Or.inl rfl) body [((n, v), [13, 10])] (by simp)
      (by
        intro ft hft
        simp only [List.mem_singleton] at hft
        subst hft
        exact ⟨hn, hnall, hvall, Or.inl rfl⟩)]
    simp [buildMap, insertField, hnosp, hmInsert]
  · rw [hq]
    simp only [latin1_append]
    have h34 : latin1_to_string [34] = "\"" := rfl
    rw [h34]

/-- C8, witness: the field `X: a="b; c"` keeps the quotes and the embedded
semicolon and space verbatim in the captured value. -/
theorem c8_quoted_verbatim_witness :
    parse_headers (renderBlock [(([88], strBytes "a=\"b; c\""), [13, 10])] [13, 10] []) =
      some ([], [(asciiLower (latin1_to_string [88]),
        latin1_to_string (strBytes "a=\"b; c\""))]) ∧
    latin1_to_string (strBytes "a=\"b; c\"") =
      latin1_to_string (strBytes "a=") ++ "\"" ++ latin1_to_string (strBytes "b; c") ++ "\"" ++
        latin1_to_string ([] : List Nat) :=
  c8_quoted_verbatim [88] (strBytes "a=\"b; c\"") (strBytes "a=") (strBytes "b; c") [] []
    (by decide) (by decide) (by decide) (by decide) (by decide)

/-! ## Claim C10 -/

/-- C10: the parser accepts carriage-return line-feed and bare line-feed
alike, after every generic field and as the blank-line terminator: a
well-formed block rendered with bare-LF endings parses to the same header
map and the same body as the block rendered with CR-LF endings. -/
theorem c10_line_terminators (fs : List (List Nat × List Nat)) (body : List Nat)
    (hne : fs ≠ [])
    (hok : ∀ f ∈ fs, f.1 ≠ [] ∧ (∀ b ∈ f.1, isTokenByte b = true) ∧
      ∀ b ∈ f.2, isFieldByte b = true) :
    parse_headers (renderBlock (fs.map (fun f => (f, [10]))) [10] body) =
      some (body, buildMap fs) ∧
    parse_headers (renderBlock (fs.map (fun f => (f, [13, 10]))) [13, 10] body) =
      some (body, buildMap fs) := by
  have hproj10 : (fs.map (fun f => (f, ([10] : List Nat)))).map Prod.fst = fs := by
    rw [List.map_map]
    exact List.map_id fs
  have hproj13 : (fs.map (fun f => (f, ([13, 10] : List Nat)))).map Prod.fst = fs := by
    rw [List.map_map]
    exact List.map_id fs
  constructor
  · rw [parse_render (Or.inr rfl) body (fs.map (fun f => (f, [10])))
      (by simpa using hne)
      (by
        intro ft hft
        simp only [List.mem_map] at hft
        obtain ⟨f, hf, rfl⟩ := hft
        obtain ⟨h1, h2, h3⟩ := hok f hf
        exact ⟨h1, h2, h3, Or.inr rfl⟩)]
    rw [hproj10]
  · rw [parse_render (Or.inl rfl) body (fs.map (fun f => (f, [13, 10])))
      (by simpa using hne)
      (by
        intro ft hft
        simp only [List.mem_map] at hft
        obtain ⟨f, hf, rfl⟩ := hft
        obtain ⟨h1, h2, h3⟩ := hok f hf
        exact ⟨h1, h2, h3, Or.inl rfl⟩)]
    rw [hproj13]

/-- C10, witness: the one-field block `A: b` with body `x`, in both
terminator styles. -/
theorem c10_line_terminators_witness :
    parse_headers (renderBlock ([([65], [98])].map (fun f => (f, [10]))) [10] [120]) =
      some ([120], buildMap [([65], [98])]) ∧
    parse_headers (renderBlock ([([65], [98])].map (fun f => (f, [13, 10]))) [13, 10] [120]) =
      some ([120], buildMap [([65], [98])]) :=
  c10_line_terminators [([65], [98])] [120] (by decide) (by decide)

end FcgiCli
